import Mathlib

/-!
# Verification of the `reduce` transform (event reduction engine)

Shallow embedding of `src/transforms/reduce/mod.rs`.  The pieces of the
repository that `mod.rs` uses but whose sources are not part of the
repository snapshot (the `merge_strategy` submodule, `event::Value`,
`event::discriminant::Discriminant`, `EventMetadata`, the condition
evaluator) are modelled from the specification, and are marked as such in
their doc comments.  Time is modelled by threading an explicit monotonic
instant (`now : Nat`, milliseconds) through the operations that read the
clock in the source.
-/

/-- Modelled from the spec: the event value union (`event::Value`, not in the
snapshot): null, boolean, signed integer, floating-point, timestamp, byte
string, text string, ordered array, string-keyed mapping.  The float payload
is modelled as a rational; no claim depends on IEEE rounding.  Timestamps are
modelled as natural milliseconds. -/
inductive Value : Type where
  | null : Value
  | bool (b : Bool) : Value
  | int (n : Int) : Value
  | float (q : Rat) : Value
  | timestamp (t : Nat) : Value
  | bytes (s : String) : Value
  | str (s : String) : Value
  | array (vs : List Value) : Value
  | object (fs : List (String × Value)) : Value

mutual

/-- Structural equality test on values (the source's derived `PartialEq`). -/
def Value.beq : Value → Value → Bool
  | .null, .null => true
  | .bool a, .bool b => a == b
  | .int a, .int b => a == b
  | .float a, .float b => a == b
  | .timestamp a, .timestamp b => a == b
  | .bytes a, .bytes b => a == b
  | .str a, .str b => a == b
  | .array vs, .array ws => Value.beqList vs ws
  | .object fs, .object gs => Value.beqFields fs gs
  | _, _ => false

/-- Element-wise equality of value arrays. -/
def Value.beqList : List Value → List Value → Bool
  | [], [] => true
  | v :: vs, w :: ws => Value.beq v w && Value.beqList vs ws
  | _, _ => false

/-- Entry-wise equality of mappings. -/
def Value.beqFields : List (String × Value) → List (String × Value) → Bool
  | [], [] => true
  | (k, v) :: fs, (l, w) :: gs => k == l && (Value.beq v w && Value.beqFields fs gs)
  | _, _ => false

end

theorem Value.beq_iff (a b : Value) : Value.beq a b = true ↔ a = b := by
  refine Value.beq.induct
    (fun a b => Value.beq a b = true ↔ a = b)
    (fun fs gs => Value.beqFields fs gs = true ↔ fs = gs)
    (fun vs ws => Value.beqList vs ws = true ↔ vs = ws)
    ?_ ?_ ?_ ?_ ?_ ?_ ?_ ?_ ?_ ?_ ?_ ?_ ?_ ?_ ?_ ?_ a b
  · simp [Value.beq]
  · intro a b; simp [Value.beq]
  · intro a b; simp [Value.beq]
  · intro a b; simp [Value.beq]
  · intro a b; simp [Value.beq]
  · intro a b; simp [Value.beq]
  · intro a b; simp [Value.beq]
  · intro vs ws ih; simpa [Value.beq] using ih
  · intro fs gs ih; simpa [Value.beq] using ih
  · intro t x h1 h2 h3 h4 h5 h6 h7 h8 h9
    cases t <;> cases x <;>
      first
        | exact (h1 rfl rfl).elim
        | exact (h2 _ _ rfl rfl).elim
        | exact (h3 _ _ rfl rfl).elim
        | exact (h4 _ _ rfl rfl).elim
        | exact (h5 _ _ rfl rfl).elim
        | exact (h6 _ _ rfl rfl).elim
        | exact (h7 _ _ rfl rfl).elim
        | exact (h8 _ _ rfl rfl).elim
        | exact (h9 _ _ rfl rfl).elim
        | simp [Value.beq]
  · simp [Value.beqList]
  · intro v vs w ws ih1 ih2; simp [Value.beqList, ih1, ih2]
  · intro t x h1 h2
    cases t <;> cases x <;>
      first
        | exact (h1 rfl rfl).elim
        | exact (h2 _ _ _ _ rfl rfl).elim
        | simp [Value.beqList]
  · simp [Value.beqFields]
  · intro k v fs l w gs ih1 ih2; simp [Value.beqFields, ih1, ih2, and_assoc]
  · intro t x h1 h2
    cases t <;> cases x <;>
      first
        | exact (h1 rfl rfl).elim
        | exact (h2 _ _ _ _ _ _ rfl rfl).elim
        | simp [Value.beqFields]

instance : DecidableEq Value := fun a b =>
  decidable_of_iff (Value.beq a b = true) (Value.beq_iff a b)

/-- Is the top-level value a mapping?  (`matches!(value, Value::Object(_))`). -/
def Value.isObject : Value → Bool
  | Value.object _ => true
  | _ => false

/-- The field list of a value: the entries when it is a mapping, nothing
otherwise (non-mapping values contribute no fields). -/
def Value.fieldsOf : Value → List (String × Value)
  | Value.object fs => fs
  | _ => []

/-- Modelled from the spec: `EventMetadata` (not in the snapshot) is an
opaque blob supporting a `merge` (union) operation; we model it as a list of
abstract provenance tokens merged by concatenation. -/
def EventMetadata : Type := List Nat
  deriving DecidableEq

/-- `EventMetadata::merge`: union of the two blobs. -/
def EventMetadata.merge (a b : EventMetadata) : EventMetadata :=
  List.append a b

/-- A log event: a top-level value plus attached metadata
(`LogEvent::into_parts` decomposes it into exactly these two pieces). -/
structure LogEvent : Type where
  value : Value
  metadata : EventMetadata
  deriving DecidableEq

/-- The set (list) of top-level field names of an event. -/
def LogEvent.fieldNames (e : LogEvent) : List String :=
  e.value.fieldsOf.map Prod.fst

/-- Modelled from the spec: the closed set of merge strategies (§4.1, the
`MergeStrategy` enum of the `merge_strategy` submodule, not in the
snapshot). -/
inductive MergeStrategy : Type where
  | discard : MergeStrategy
  | retain : MergeStrategy
  | sum : MergeStrategy
  | max : MergeStrategy
  | min : MergeStrategy
  | array : MergeStrategy
  | concat : MergeStrategy
  | concatNewline : MergeStrategy
  | concatRaw : MergeStrategy
  | shortestArray : MergeStrategy
  | longestArray : MergeStrategy
  | flatUnique : MergeStrategy
  deriving DecidableEq

/-- Numeric view of a value (`sum`, `max`, `min` treat integers and floats
uniformly, widening integers as needed). -/
def Value.asNumber : Value → Option Rat
  | Value.int n => some (n : Rat)
  | Value.float q => some q
  | _ => none

/-- Modelled from the spec: one level of flattening used by `flat_unique`
(arrays contribute their elements, mappings their values, scalars
themselves). -/
def flattenOneLevel : Value → List Value
  | Value.array vs => vs
  | Value.object fs => fs.map Prod.snd
  | v => [v]

/-- Append a value to a list if it is not already present (first-seen order
deduplication for `flat_unique`). -/
def insertUnique (vs : List Value) (v : Value) : List Value :=
  if v ∈ vs then vs else vs ++ [v]

/-- Modelled from the spec: the per-field merger state machines
(`ReduceValueMerger` implementations of the `merge_strategy` submodule, not
in the snapshot).  `tsWindow` is the default timestamp handling: `discard`
on the field itself plus a `retain` merger feeding the synthetic
`<field>_end` output field. -/
inductive Merger : Type where
  | discard (first : Value) : Merger
  | retain (last : Value) : Merger
  | sumInt (n : Int) : Merger
  | sumFloat (q : Rat) : Merger
  | maxMerge (v : Value) : Merger
  | minMerge (v : Value) : Merger
  | arrayMerge (vs : List Value) : Merger
  | concatString (s : String) : Merger
  | concatArray (vs : List Value) : Merger
  | concatNewlineMerge (s : String) : Merger
  | concatRawMerge (s : String) : Merger
  | shortestArrayMerge (vs : List Value) : Merger
  | longestArrayMerge (vs : List Value) : Merger
  | flatUniqueMerge (vs : List Value) : Merger
  | tsWindow (first : Nat) (last : Value) : Merger

/-- Modelled from the spec: `get_value_merger(v, strat)` — seed a merger for
an explicitly configured strategy; seeding fails when the strategy rejects
the initial value's type (§4.1 "Seed accepts" column). -/
def get_value_merger (v : Value) (strat : MergeStrategy) : Except String Merger :=
  match strat with
  | MergeStrategy.discard => Except.ok (Merger.discard v)
  | MergeStrategy.retain => Except.ok (Merger.retain v)
  | MergeStrategy.sum =>
      match v with
      | Value.int n => Except.ok (Merger.sumInt n)
      | Value.float q => Except.ok (Merger.sumFloat q)
      | _ => Except.error "expected number value, found incompatible value"
  | MergeStrategy.max =>
      match v with
      | Value.int _ | Value.float _ | Value.timestamp _ => Except.ok (Merger.maxMerge v)
      | _ => Except.error "expected number or timestamp value, found incompatible value"
  | MergeStrategy.min =>
      match v with
      | Value.int _ | Value.float _ | Value.timestamp _ => Except.ok (Merger.minMerge v)
      | _ => Except.error "expected number or timestamp value, found incompatible value"
  | MergeStrategy.array => Except.ok (Merger.arrayMerge [v])
  | MergeStrategy.concat =>
      match v with
      | Value.str s => Except.ok (Merger.concatString s)
      | Value.array vs => Except.ok (Merger.concatArray vs)
      | _ => Except.error "expected string or array value, found incompatible value"
  | MergeStrategy.concatNewline =>
      match v with
      | Value.str s => Except.ok (Merger.concatNewlineMerge s)
      | _ => Except.error "expected string value, found incompatible value"
  | MergeStrategy.concatRaw =>
      match v with
      | Value.str s => Except.ok (Merger.concatRawMerge s)
      | _ => Except.error "expected string value, found incompatible value"
  | MergeStrategy.shortestArray =>
      match v with
      | Value.array vs => Except.ok (Merger.shortestArrayMerge vs)
      | _ => Except.error "expected array value, found incompatible value"
  | MergeStrategy.longestArray =>
      match v with
      | Value.array vs => Except.ok (Merger.longestArrayMerge vs)
      | _ => Except.error "expected array value, found incompatible value"
  | MergeStrategy.flatUnique =>
      Except.ok (Merger.flatUniqueMerge ((flattenOneLevel v).foldl insertUnique []))

/-- Modelled from the spec: the default merger for a field with no
configured strategy (`impl From<Value> for Box<dyn ReduceValueMerger>` of
the `merge_strategy` submodule, not in the snapshot; §4.1 "Default" table).
It is a total function of the seed value: string, byte string, boolean,
null, array and mapping fall to `discard`, numbers to `sum`, timestamps to
the first/`_end` window. -/
def defaultMerger : Value → Merger
  | Value.int n => Merger.sumInt n
  | Value.float q => Merger.sumFloat q
  | Value.timestamp t => Merger.tsWindow t (Value.timestamp t)
  | v => Merger.discard v

/-- Modelled from the spec: `ReduceValueMerger::add` (§4.1 "add behavior"
column).  Failures leave the merger unchanged at the call site (the
contribution is dropped and a warning recorded). -/
def Merger.add (m : Merger) (v : Value) : Except String Merger :=
  match m with
  | Merger.discard first => Except.ok (Merger.discard first)
  | Merger.retain _ => Except.ok (Merger.retain v)
  | Merger.sumInt n =>
      match v with
      | Value.int k => Except.ok (Merger.sumInt (n + k))
      | Value.float q => Except.ok (Merger.sumFloat ((n : Rat) + q))
      | _ => Except.error "expected number value, found incompatible value"
  | Merger.sumFloat q =>
      match v with
      | Value.int k => Except.ok (Merger.sumFloat (q + (k : Rat)))
      | Value.float p => Except.ok (Merger.sumFloat (q + p))
      | _ => Except.error "expected number value, found incompatible value"
  | Merger.maxMerge cur =>
      match cur.asNumber, v.asNumber with
      | some a, some b => Except.ok (Merger.maxMerge (if a < b then v else cur))
      | _, _ =>
          match cur, v with
          | Value.timestamp a, Value.timestamp b =>
              Except.ok (Merger.maxMerge (Value.timestamp (Nat.max a b)))
          | _, _ => Except.error "expected number or timestamp value, found incompatible value"
  | Merger.minMerge cur =>
      match cur.asNumber, v.asNumber with
      | some a, some b => Except.ok (Merger.minMerge (if b < a then v else cur))
      | _, _ =>
          match cur, v with
          | Value.timestamp a, Value.timestamp b =>
              Except.ok (Merger.minMerge (Value.timestamp (Nat.min a b)))
          | _, _ => Except.error "expected number or timestamp value, found incompatible value"
  | Merger.arrayMerge vs => Except.ok (Merger.arrayMerge (vs ++ [v]))
  | Merger.concatString s =>
      match v with
      | Value.str t => Except.ok (Merger.concatString (s ++ " " ++ t))
      | _ => Except.error "expected string value, found incompatible value"
  | Merger.concatArray vs =>
      match v with
      | Value.array ws => Except.ok (Merger.concatArray (vs ++ ws))
      | _ => Except.error "expected array value, found incompatible value"
  | Merger.concatNewlineMerge s =>
      match v with
      | Value.str t => Except.ok (Merger.concatNewlineMerge (s ++ "\n" ++ t))
      | _ => Except.error "expected string value, found incompatible value"
  | Merger.concatRawMerge s =>
      match v with
      | Value.str t => Except.ok (Merger.concatRawMerge (s ++ t))
      | _ => Except.error "expected string value, found incompatible value"
  | Merger.shortestArrayMerge vs =>
      match v with
      | Value.array ws =>
          Except.ok (Merger.shortestArrayMerge (if ws.length < vs.length then ws else vs))
      | _ => Except.error "expected array value, found incompatible value"
  | Merger.longestArrayMerge vs =>
      match v with
      | Value.array ws =>
          Except.ok (Merger.longestArrayMerge (if ws.length > vs.length then ws else vs))
      | _ => Except.error "expected array value, found incompatible value"
  | Merger.flatUniqueMerge vs =>
      Except.ok (Merger.flatUniqueMerge ((flattenOneLevel v).foldl insertUnique vs))
  | Merger.tsWindow first _ => Except.ok (Merger.tsWindow first v)

/-- Modelled from the spec: `ReduceValueMerger::insert_into(k, target)` —
the entries the finalized merger contributes to the output event.  Only the
default timestamp window contributes a second, `<field>_end`-named entry. -/
def Merger.insert_into (k : String) (m : Merger) : List (String × Value) :=
  match m with
  | Merger.discard first => [(k, first)]
  | Merger.retain last => [(k, last)]
  | Merger.sumInt n => [(k, Value.int n)]
  | Merger.sumFloat q => [(k, Value.float q)]
  | Merger.maxMerge v => [(k, v)]
  | Merger.minMerge v => [(k, v)]
  | Merger.arrayMerge vs => [(k, Value.array vs)]
  | Merger.concatString s => [(k, Value.str s)]
  | Merger.concatArray vs => [(k, Value.array vs)]
  | Merger.concatNewlineMerge s => [(k, Value.str s)]
  | Merger.concatRawMerge s => [(k, Value.str s)]
  | Merger.shortestArrayMerge vs => [(k, Value.array vs)]
  | Merger.longestArrayMerge vs => [(k, Value.array vs)]
  | Merger.flatUniqueMerge vs => [(k, Value.array vs)]
  | Merger.tsWindow first last => [(k, Value.timestamp first), (k ++ "_end", last)]

/-- Lookup in an association list (the embedding of `HashMap::get` /
`IndexMap::get`; hash-map iteration order is unspecified in the source, the
list order here is one admissible order). -/
def assocLookup {α β : Type} [DecidableEq α] : List (α × β) → α → Option β
  | [], _ => none
  | (k', v) :: rest, k => if k' = k then some v else assocLookup rest k

/-- Remove the (first) entry with the given key (the embedding of the
removal performed by `HashMap::remove`). -/
def assocErase {α β : Type} [DecidableEq α] : List (α × β) → α → List (α × β)
  | [], _ => []
  | (k', v) :: rest, k => if k' = k then rest else (k', v) :: assocErase rest k

/-- Update the value at a key in place (the embedding of mutating through
`hash_map::Entry::Occupied`). -/
def assocUpdate {α β : Type} [DecidableEq α] : List (α × β) → α → (β → β) → List (α × β)
  | [], _, _ => []
  | (k', v) :: rest, k, f =>
      if k' = k then (k', f v) :: rest else (k', v) :: assocUpdate rest k f

/-- Modelled from the spec: the discriminant (`event::discriminant`, not in
the snapshot) — an ordered sequence of optional values, one per `group_by`
path; a missing path contributes a null slot. -/
def Discriminant : Type := List (Option Value)
  deriving DecidableEq

/-- Modelled from the spec: `Discriminant::from_log_event` — look up each
`group_by` path on the event (paths are modelled as top-level field names;
a non-mapping event has no fields, so every path misses). -/
def Discriminant.from_log_event (e : LogEvent) (group_by : List String) : Discriminant :=
  group_by.map (fun path => assocLookup e.value.fieldsOf path)

/-- Modelled from the spec: a built condition.  The evaluator may inspect
but not mutate the event, so it is a boolean function of the event. -/
def Condition : Type := LogEvent → Bool

/-- `Condition::check` returns the verdict together with the (unchanged)
event, mirroring the source's `(bool, Event)` signature. -/
def Condition.check (c : Condition) (e : LogEvent) : Bool × LogEvent :=
  (c e, e)

/-- Modelled from the spec: an unbuilt condition expression
(`AnyCondition`, not in the snapshot); building it can fail with a
configuration error. -/
structure AnyCondition : Type where
  build : Except String Condition

/-- `Option::transpose` over a fallible build. -/
def exceptTranspose {ε α : Type} : Option (Except ε α) → Except ε (Option α)
  | none => Except.ok none
  | some (Except.ok a) => Except.ok (some a)
  | some (Except.error e) => Except.error e

/-- `ReduceConfig`: the configuration surface of the transform
(`expire_after_ms` defaults to 30000, `flush_period_ms` to 1000). -/
structure ReduceConfig : Type where
  expire_after_ms : Option Nat
  flush_period_ms : Option Nat
  group_by : List String
  merge_strategies : List (String × MergeStrategy)
  ends_when : Option AnyCondition
  starts_when : Option AnyCondition

/-- `ReduceState`: the state of one live group — one active merger per
field seen, the last-activity instant, and the accumulated metadata. -/
structure ReduceState : Type where
  fields : List (String × Merger)
  stale_since : Nat
  metadata : EventMetadata

/-- `ReduceState::new`: seed a group from an event.  For each field of a
mapping-valued event, a configured strategy seeds via `get_value_merger`
(dropping the field on error), otherwise the default merger is used.
`stale_since` is set to the current instant and the metadata taken. -/
def ReduceState.new (e : LogEvent) (strategies : List (String × MergeStrategy))
    (now : Nat) : ReduceState :=
  let fields :=
    match e.value with
    | Value.object fs =>
        fs.filterMap (fun kv =>
          match assocLookup strategies kv.1 with
          | some strat =>
              match get_value_merger kv.2 strat with
              | Except.ok m => some (kv.1, m)
              | Except.error _ => none
          | none => some (kv.1, defaultMerger kv.2))
    | _ => []
  { fields := fields, stale_since := now, metadata := e.metadata }

/-- The body of `add_event`'s per-field loop: a vacant entry seeds a new
merger (a configured strategy through `get_value_merger`, dropping the
field on a seeding error; otherwise the total default merger), an occupied
entry `add`s the value into the existing merger, keeping it unchanged when
`add` errors (the contribution is dropped). -/
def addFieldStep (strategies : List (String × MergeStrategy))
    (acc : List (String × Merger)) (kv : String × Value) :
    List (String × Merger) :=
  match assocLookup acc kv.1 with
  | none =>
      match assocLookup strategies kv.1 with
      | some strat =>
          match get_value_merger kv.2 strat with
          | Except.ok m => acc ++ [(kv.1, m)]
          | Except.error _ => acc
      | none => acc ++ [(kv.1, defaultMerger kv.2)]
  | some _ =>
      assocUpdate acc kv.1 (fun m =>
        match m.add kv.2 with
        | Except.ok m' => m'
        | Except.error _ => m)

/-- `ReduceState::add_event`: merge the event's metadata, then run the
per-field loop over the fields of a mapping-valued event (a non-mapping
value yields the empty field list).  Note: the source does not touch
`stale_since` here. -/
def ReduceState.add_event (s : ReduceState) (e : LogEvent)
    (strategies : List (String × MergeStrategy)) : ReduceState :=
  { fields := e.value.fieldsOf.foldl (addFieldStep strategies) s.fields
  , stale_since := s.stale_since
  , metadata := s.metadata.merge e.metadata }

/-- `ReduceState::flush`: build a fresh event carrying the group's
metadata and let every merger insert its finalized value(s). -/
def ReduceState.flush (s : ReduceState) : LogEvent :=
  { value := Value.object
      (s.fields.foldl (fun acc kv => acc ++ Merger.insert_into kv.1 kv.2) [])
  , metadata := s.metadata }

/-- `Reduce`: the registry of live groups plus the decision logic.  The
duration fields are in milliseconds, matching the config keys. -/
structure Reduce : Type where
  expire_after : Nat
  flush_period : Nat
  group_by : List String
  merge_strategies : List (String × MergeStrategy)
  reduce_merge_states : List (Discriminant × ReduceState)
  ends_when : Option Condition
  starts_when : Option Condition

/-- `Reduce::new`: reject configurations that set both `ends_when` and
`starts_when`; otherwise build whichever predicate is present (propagating
its build error) and construct the reducer with an empty group map and the
defaulted durations. -/
def Reduce.new (config : ReduceConfig) : Except String Reduce :=
  if config.ends_when.isSome && config.starts_when.isSome then
    Except.error "only one of `ends_when` and `starts_when` can be provided"
  else do
    let ends_when ← exceptTranspose (config.ends_when.map AnyCondition.build)
    let starts_when ← exceptTranspose (config.starts_when.map AnyCondition.build)
    Except.ok
      { expire_after := config.expire_after_ms.getD 30000
      , flush_period := config.flush_period_ms.getD 1000
      , group_by := config.group_by
      , merge_strategies := config.merge_strategies
      , reduce_merge_states := []
      , ends_when := ends_when
      , starts_when := starts_when }

/-- The body of the stale sweep's removal loop: `remove` the collected
discriminant; when an entry is found, record one `ReduceStaleEventFlushed`
hook (the counter component) and push the group's flush. -/
def flushLoopBody (acc : Reduce × List LogEvent × Nat) (k : Discriminant) :
    Reduce × List LogEvent × Nat :=
  match assocLookup acc.1.reduce_merge_states k with
  | some t =>
      ({ acc.1 with reduce_merge_states := assocErase acc.1.reduce_merge_states k },
        acc.2.1 ++ [t.flush], acc.2.2 + 1)
  | none => acc

/-- `Reduce::flush_into` (the stale sweep): collect the discriminants of
groups with `now - stale_since >= expire_after`, then run the removal loop
over them.  The third component counts the `ReduceStaleEventFlushed` hooks
recorded during this call. -/
def Reduce.flush_into (r : Reduce) (output : List LogEvent) (now : Nat) :
    Reduce × List LogEvent × Nat :=
  let flush_discriminants :=
    (r.reduce_merge_states.filter
      (fun kt => r.expire_after ≤ now - kt.2.stale_since)).map Prod.fst
  flush_discriminants.foldl flushLoopBody (r, output, 0)

/-- `Reduce::flush_all_into` (end-of-stream): drain every group, pushing
each flush.  The loop body contains no hook emission, so the recorded
`ReduceStaleEventFlushed` count of this call is zero (third component). -/
def Reduce.flush_all_into (r : Reduce) (output : List LogEvent) :
    Reduce × List LogEvent × Nat :=
  ({ r with reduce_merge_states := [] },
    r.reduce_merge_states.foldl (fun acc kv => acc ++ [kv.2.flush]) output, 0)

/-- `Reduce::push_or_new_reduce_state`: vacant entry seeds a new group,
occupied entry appends to the existing one. -/
def Reduce.push_or_new_reduce_state (r : Reduce) (event : LogEvent)
    (discriminant : Discriminant) (now : Nat) : Reduce :=
  match assocLookup r.reduce_merge_states discriminant with
  | none =>
      { r with reduce_merge_states :=
          r.reduce_merge_states ++
            [(discriminant, ReduceState.new event r.merge_strategies now)] }
  | some _ =>
      let updated :=
        assocUpdate r.reduce_merge_states discriminant
          (fun s => s.add_event event r.merge_strategies)
      { r with reduce_merge_states := updated }

/-- The verdict of the `starts_when` predicate on an event (false when the
predicate is absent), as computed at the top of `transform_one`. -/
def Reduce.startsHere (r : Reduce) (event : LogEvent) : Bool :=
  match r.starts_when with
  | some condition => (condition.check event).1
  | none => false

/-- The verdict of the `ends_when` predicate on an event (false when the
predicate is absent). -/
def Reduce.endsHere (r : Reduce) (event : LogEvent) : Bool :=
  match r.ends_when with
  | some condition => (condition.check event).1
  | none => false

/-- `Reduce::transform_one`: the per-event decision (start-new / append /
append-and-emit), followed by the trailing stale sweep.  Returns the new
reducer, the output events pushed, and the stale-hook count. -/
def Reduce.transform_one (r : Reduce) (output : List LogEvent) (event : LogEvent)
    (now : Nat) : Reduce × List LogEvent × Nat :=
  let starts_here := r.startsHere event
  let ends_here := r.endsHere event
  let discriminant := Discriminant.from_log_event event r.group_by
  let step :=
    if starts_here then
      let removed :=
        match assocLookup r.reduce_merge_states discriminant with
        | some state =>
            ({ r with reduce_merge_states :=
                assocErase r.reduce_merge_states discriminant },
              output ++ [state.flush])
        | none => (r, output)
      (removed.1.push_or_new_reduce_state event discriminant now, removed.2)
    else if ends_here then
      match assocLookup r.reduce_merge_states discriminant with
      | some state =>
          ({ r with reduce_merge_states :=
              assocErase r.reduce_merge_states discriminant },
            output ++ [(state.add_event event r.merge_strategies).flush])
      | none =>
          (r, output ++ [(ReduceState.new event r.merge_strategies now).flush])
    else
      (r.push_or_new_reduce_state event discriminant now, output)
  step.1.flush_into step.2 now

/-- One iteration's input for the stream driver: a flush tick or an
upstream event, each observed at a monotonic instant. -/
inductive DriverStep : Type where
  | tick (now : Nat) : DriverStep
  | event (e : LogEvent) (now : Nat) : DriverStep

/-- The stream driver (`TaskTransform::transform`): service ticks through
the stale sweep and events through the per-event decision, yielding each
iteration's output in order; on upstream end-of-stream flush all remaining
groups and terminate (nothing is yielded afterwards). -/
def Reduce.run (r : Reduce) : List DriverStep → List LogEvent
  | [] => (r.flush_all_into []).2.1
  | DriverStep.tick now :: rest =>
      let step := r.flush_into [] now
      step.2.1 ++ step.1.run rest
  | DriverStep.event e now :: rest =>
      let step := r.transform_one [] e now
      step.2.1 ++ step.1.run rest

/-- Concatenation of the top-level field names of a list of events (the
union, as a list, of the fields over the events that fed a group). -/
def unionFieldNames (es : List LogEvent) : List String :=
  (es.map LogEvent.fieldNames).flatten

/-- Feed a group: seed from the first event, then append the rest. -/
def feedGroup (e0 : LogEvent) (es : List LogEvent)
    (strategies : List (String × MergeStrategy)) (now : Nat) : ReduceState :=
  es.foldl (fun s e => s.add_event e strategies) (ReduceState.new e0 strategies now)

/-- Sample condition: the event has a `test_end` field (the `ends_when`
predicate of the source's own tests). -/
def condTestEnd : Condition :=
  fun e => (assocLookup e.value.fieldsOf "test_end").isSome

/-- Sample condition: the event has a `begin` field. -/
def condBegin : Condition :=
  fun e => (assocLookup e.value.fieldsOf "begin").isSome

/-- Sample condition that matches every event. -/
def condAlways : Condition := fun _ => true

/-- Sample event with a single numeric field. -/
def evPlain : LogEvent := { value := Value.object [("x", Value.int 1)], metadata := [0] }

/-- Sample event matching `condTestEnd`. -/
def evEnd : LogEvent :=
  { value := Value.object [("x", Value.int 2), ("test_end", Value.str "yep")], metadata := [1] }

/-- Sample event matching `condBegin`. -/
def evBegin : LogEvent :=
  { value := Value.object [("begin", Value.bool true), ("x", Value.int 10)], metadata := [2] }

/-- Sample event whose top-level value is not a mapping. -/
def evNonMap : LogEvent := { value := Value.int 3, metadata := [4] }

/-- Sample event with a single timestamp-valued field. -/
def evTs : LogEvent := { value := Value.object [("t", Value.timestamp 5)], metadata := [5] }

/-- A live group seeded from `evPlain` at instant 0. -/
def groupA : ReduceState := ReduceState.new evPlain [] 0

/-- Sample reducer with an `ends_when` predicate, an empty `group_by`
(every event shares the empty discriminant) and one live group. -/
def rEnds : Reduce :=
  { expire_after := 100, flush_period := 10, group_by := [], merge_strategies := []
  , reduce_merge_states := [(([] : Discriminant), groupA)]
  , ends_when := some condTestEnd, starts_when := none }

/-- Sample reducer with an `ends_when` predicate and no live group. -/
def rEndsEmpty : Reduce :=
  { rEnds with reduce_merge_states := [] }

/-- Sample reducer with a `starts_when` predicate and one live group. -/
def rStarts : Reduce :=
  { rEnds with ends_when := none, starts_when := some condBegin }

/-- Sample reducer with a `starts_when` predicate and no live group. -/
def rStartsEmpty : Reduce :=
  { rStarts with reduce_merge_states := [] }

/-- Sample reducer whose `ends_when` matches every event. -/
def rAlways : Reduce :=
  { rEnds with reduce_merge_states := [], ends_when := some condAlways }

/-- A condition expression whose build succeeds. -/
def anyOk : AnyCondition := { build := Except.ok condTestEnd }

/-- Sample configuration with both predicates set. -/
def cfgBoth : ReduceConfig :=
  { expire_after_ms := none, flush_period_ms := none, group_by := []
  , merge_strategies := [], ends_when := some anyOk, starts_when := some anyOk }

/-- Sample configuration with only `ends_when` set. -/
def cfgOne : ReduceConfig :=
  { cfgBoth with starts_when := none }

theorem foldl_append_eq {α β : Type} (g : α → List β) (l : List α) (init : List β) :
    l.foldl (fun acc x => acc ++ g x) init = init ++ (l.map g).flatten := by
  induction l generalizing init with
  | nil => simp
  | cons x xs ih => simp [ih]

theorem foldl_push_eq {α β : Type} (f : α → β) (l : List α) (init : List β) :
    l.foldl (fun acc x => acc ++ [f x]) init = init ++ l.map f := by
  induction l generalizing init with
  | nil => simp
  | cons x xs ih => simp [ih]

theorem mem_assocErase {α β : Type} [DecidableEq α] :
    ∀ (l : List (α × β)) (k : α), ∀ kv ∈ assocErase l k, kv ∈ l
  | [], _ => by simp [assocErase]
  | (k', v) :: rest, k => by
      intro kv hkv
      simp only [assocErase] at hkv
      by_cases h : k' = k
      · simp only [h, if_true] at hkv
        exact List.mem_cons_of_mem _ hkv
      · simp only [h, if_false] at hkv
        rcases List.mem_cons.mp hkv with h1 | h2
        · exact h1 ▸ List.mem_cons_self _ _
        · exact List.mem_cons_of_mem _ (mem_assocErase rest k kv h2)

theorem assocLookup_eq_none {α β : Type} [DecidableEq α] :
    ∀ (l : List (α × β)) (k : α), k ∉ l.map Prod.fst → assocLookup l k = none
  | [], _ => by intro _; rfl
  | (k', v) :: rest, k => by
      intro h
      simp only [List.map_cons, List.mem_cons] at h
      push_neg at h
      simp only [assocLookup]
      rw [if_neg (Ne.symm h.1)]
      exact assocLookup_eq_none rest k h.2

theorem mem_keys_of_assocLookup {α β : Type} [DecidableEq α] :
    ∀ (l : List (α × β)) (k : α) (v : β), assocLookup l k = some v → k ∈ l.map Prod.fst
  | [], _, _ => by intro h; simp [assocLookup] at h
  | (k', w) :: rest, k, v => by
      intro h
      simp only [assocLookup] at h
      by_cases hk : k' = k
      · simp [hk]
      · simp only [hk, if_false] at h
        simp only [List.map_cons, List.mem_cons]
        exact Or.inr (mem_keys_of_assocLookup rest k v h)

theorem assocErase_keys_nodup {α β : Type} [DecidableEq α] :
    ∀ (l : List (α × β)) (k : α), (l.map Prod.fst).Nodup →
      ((assocErase l k).map Prod.fst).Nodup
  | [], _ => by simp [assocErase]
  | (k', v) :: rest, k => by
      intro h
      simp only [List.map_cons, List.nodup_cons] at h
      simp only [assocErase]
      by_cases hk : k' = k
      · simpa [hk] using h.2
      · simp only [hk, if_false, List.map_cons, List.nodup_cons]
        refine ⟨fun hmem => h.1 ?_, assocErase_keys_nodup rest k h.2⟩
        rcases List.mem_map.mp hmem with ⟨kv, hkv, hfst⟩
        exact hfst ▸ List.mem_map_of_mem Prod.fst (mem_assocErase rest k kv hkv)

theorem assocLookup_assocErase_self {α β : Type} [DecidableEq α] :
    ∀ (l : List (α × β)) (k : α), (l.map Prod.fst).Nodup →
      assocLookup (assocErase l k) k = none
  | [], _ => by intro _; rfl
  | (k', v) :: rest, k => by
      intro h
      simp only [List.map_cons, List.nodup_cons] at h
      simp only [assocErase]
      by_cases hk : k' = k
      · subst hk
        simp only [if_true]
        exact assocLookup_eq_none rest k' h.1
      · simp only [hk, if_false, assocLookup]
        exact assocLookup_assocErase_self rest k h.2

theorem assocUpdate_keys {α β : Type} [DecidableEq α] (f : β → β) :
    ∀ (l : List (α × β)) (k : α), (assocUpdate l k f).map Prod.fst = l.map Prod.fst
  | [], _ => rfl
  | (k', v) :: rest, k => by
      simp only [assocUpdate]
      by_cases hk : k' = k
      · simp [hk]
      · simp [hk, assocUpdate_keys f rest k]

theorem mem_assocUpdate {α β : Type} [DecidableEq α] (f : β → β) :
    ∀ (l : List (α × β)) (k : α), ∀ kv ∈ assocUpdate l k f,
      kv ∈ l ∨ ∃ v, (kv.1, v) ∈ l ∧ kv.2 = f v
  | [], _ => by simp [assocUpdate]
  | (k', v) :: rest, k => by
      intro kv hkv
      simp only [assocUpdate] at hkv
      by_cases hk : k' = k
      · simp only [hk, if_true] at hkv
        rcases List.mem_cons.mp hkv with h1 | h2
        · exact Or.inr ⟨v, by simp [h1, hk]⟩
        · exact Or.inl (List.mem_cons_of_mem _ h2)
      · simp only [hk, if_false] at hkv
        rcases List.mem_cons.mp hkv with h1 | h2
        · exact Or.inl (h1 ▸ List.mem_cons_self _ _)
        · rcases mem_assocUpdate f rest k kv h2 with h3 | ⟨w, hw, hkv2⟩
          · exact Or.inl (List.mem_cons_of_mem _ h3)
          · exact Or.inr ⟨w, List.mem_cons_of_mem _ hw, hkv2⟩

theorem flush_into_of_fresh (r : Reduce) (output : List LogEvent) (now : Nat)
    (h : ∀ kv ∈ r.reduce_merge_states, now - kv.2.stale_since < r.expire_after) :
    r.flush_into output now = (r, output, 0) := by
  unfold Reduce.flush_into
  have hfil : r.reduce_merge_states.filter
      (fun kt => r.expire_after ≤ now - kt.2.stale_since) = [] := by
    rw [List.filter_eq_nil_iff]
    intro kv hkv
    simpa using Nat.not_le.mpr (h kv hkv)
  rw [hfil]
  rfl

theorem flushLoop_cons (k : Discriminant) (s : ReduceState) :
    ∀ (ks : List Discriminant), (∀ k' ∈ ks, k' ≠ k) →
    ∀ (r : Reduce) (sts : List (Discriminant × ReduceState)) (out : List LogEvent) (n : Nat),
    ks.foldl flushLoopBody ({ r with reduce_merge_states := (k, s) :: sts }, out, n) =
      ((fun res : Reduce × List LogEvent × Nat =>
          ({ res.1 with reduce_merge_states := (k, s) :: res.1.reduce_merge_states },
            res.2.1, res.2.2))
        (ks.foldl flushLoopBody ({ r with reduce_merge_states := sts }, out, n)))
  | [], _ => by intro r sts out n; rfl
  | k' :: ks, hne => by
      intro r sts out n
      have hk : k' ≠ k := hne k' (List.mem_cons_self _ _)
      have hrest : ∀ k'' ∈ ks, k'' ≠ k := fun k'' hmem => hne k'' (List.mem_cons_of_mem _ hmem)
      simp only [List.foldl_cons]
      have hstep : flushLoopBody ({ r with reduce_merge_states := (k, s) :: sts }, out, n) k' =
          ((fun res : Reduce × List LogEvent × Nat =>
              ({ res.1 with reduce_merge_states := (k, s) :: res.1.reduce_merge_states },
                res.2.1, res.2.2))
            (flushLoopBody ({ r with reduce_merge_states := sts }, out, n) k')) := by
        simp only [flushLoopBody, assocLookup, assocErase]
        rw [if_neg (Ne.symm hk), if_neg (Ne.symm hk)]
        cases assocLookup sts k' with
        | none => rfl
        | some t => rfl
      rw [hstep]
      cases hcase : flushLoopBody ({ r with reduce_merge_states := sts }, out, n) k' with
      | mk r' rest =>
          exact flushLoop_cons k s ks hrest r' r'.reduce_merge_states rest.1 rest.2

theorem flushLoop_exact (p : Discriminant × ReduceState → Bool) :
    ∀ (sts : List (Discriminant × ReduceState)), (sts.map Prod.fst).Nodup →
    ∀ (r : Reduce) (out : List LogEvent) (n : Nat),
    ((sts.filter p).map Prod.fst).foldl flushLoopBody
        ({ r with reduce_merge_states := sts }, out, n) =
      ({ r with reduce_merge_states := sts.filter (fun kv => !p kv) },
        out ++ (sts.filter p).map (fun kv => kv.2.flush),
        n + (sts.filter p).length)
  | [], _ => by
      intro r out n
      simp [List.filter]
  | (k, s) :: sts, hnodup => by
      intro r out n
      simp only [List.map_cons, List.nodup_cons] at hnodup
      by_cases hp : p (k, s)
      · have hfil : ((k, s) :: sts).filter p = (k, s) :: sts.filter p := by
          simp [List.filter_cons, hp]
        have hfilneg : ((k, s) :: sts).filter (fun kv => !p kv) =
            sts.filter (fun kv => !p kv) := by
          simp [List.filter_cons, hp]
        rw [hfil, hfilneg]
        simp only [List.map_cons, List.foldl_cons]
        have hstep : flushLoopBody ({ r with reduce_merge_states := (k, s) :: sts }, out, n) k =
            ({ r with reduce_merge_states := sts }, out ++ [s.flush], n + 1) := by
          simp [flushLoopBody, assocLookup, assocErase]
        rw [hstep]
        rw [flushLoop_exact p sts hnodup.2 _ (out ++ [s.flush]) (n + 1)]
        simp [Nat.add_comm, Nat.add_assoc, Nat.add_left_comm]
      · have hfil : ((k, s) :: sts).filter p = sts.filter p := by
          simp [List.filter_cons, hp]
        have hfilneg : ((k, s) :: sts).filter (fun kv => !p kv) =
            (k, s) :: sts.filter (fun kv => !p kv) := by
          simp [List.filter_cons, hp]
        rw [hfil, hfilneg]
        have hne : ∀ k' ∈ (sts.filter p).map Prod.fst, k' ≠ k := by
          intro k' hk' hkk
          apply hnodup.1
          rcases List.mem_map.mp hk' with ⟨kv, hkv, hfst⟩
          have : kv ∈ sts := List.mem_of_mem_filter hkv
          exact hkk ▸ hfst ▸ List.mem_map_of_mem Prod.fst this
        rw [flushLoop_cons k s _ hne r sts out n]
        rw [flushLoop_exact p sts hnodup.2 r out n]

theorem transform_one_ends_some (r : Reduce) (output : List LogEvent) (event : LogEvent)
    (now : Nat) (state : ReduceState)
    (hstarts : r.startsHere event = false)
    (hends : r.endsHere event = true)
    (hlookup : assocLookup r.reduce_merge_states
        (Discriminant.from_log_event event r.group_by) = some state)
    (hfresh : ∀ kv ∈ r.reduce_merge_states, now - kv.2.stale_since < r.expire_after) :
    r.transform_one output event now =
      ({ r with reduce_merge_states :=
          assocErase r.reduce_merge_states (Discriminant.from_log_event event r.group_by) },
        output ++ [(state.add_event event r.merge_strategies).flush], 0) := by
  unfold Reduce.transform_one
  simp only [hstarts, hends, Bool.false_eq_true, if_false, if_true, hlookup]
  apply flush_into_of_fresh
  intro kv hkv
  exact hfresh kv (mem_assocErase _ _ kv hkv)

theorem transform_one_ends_none (r : Reduce) (output : List LogEvent) (event : LogEvent)
    (now : Nat)
    (hstarts : r.startsHere event = false)
    (hends : r.endsHere event = true)
    (hlookup : assocLookup r.reduce_merge_states
        (Discriminant.from_log_event event r.group_by) = none)
    (hfresh : ∀ kv ∈ r.reduce_merge_states, now - kv.2.stale_since < r.expire_after) :
    r.transform_one output event now =
      (r, output ++ [(ReduceState.new event r.merge_strategies now).flush], 0) := by
  unfold Reduce.transform_one
  simp only [hstarts, hends, Bool.false_eq_true, if_false, if_true, hlookup]
  exact flush_into_of_fresh r _ now hfresh

theorem transform_one_starts_some (r : Reduce) (output : List LogEvent) (event : LogEvent)
    (now : Nat) (state : ReduceState)
    (hstarts : r.startsHere event = true)
    (hlookup : assocLookup r.reduce_merge_states
        (Discriminant.from_log_event event r.group_by) = some state)
    (hkeys : (r.reduce_merge_states.map Prod.fst).Nodup)
    (hpos : 0 < r.expire_after)
    (hfresh : ∀ kv ∈ r.reduce_merge_states, now - kv.2.stale_since < r.expire_after) :
    r.transform_one output event now =
      ({ r with reduce_merge_states :=
          assocErase r.reduce_merge_states (Discriminant.from_log_event event r.group_by) ++
            [(Discriminant.from_log_event event r.group_by,
              ReduceState.new event r.merge_strategies now)] },
        output ++ [state.flush], 0) := by
  unfold Reduce.transform_one
  simp only [hstarts, if_true, hlookup]
  have herase : assocLookup
      (assocErase r.reduce_merge_states (Discriminant.from_log_event event r.group_by))
      (Discriminant.from_log_event event r.group_by) = none :=
    assocLookup_assocErase_self _ _ hkeys
  simp only [Reduce.push_or_new_reduce_state, herase]
  apply flush_into_of_fresh
  intro kv hkv
  rcases List.mem_append.mp hkv with h1 | h2
  · exact hfresh kv (mem_assocErase _ _ kv h1)
  · have : kv = (Discriminant.from_log_event event r.group_by,
        ReduceState.new event r.merge_strategies now) := by
      simpa using h2
    rw [this]
    simpa [ReduceState.new] using hpos

theorem transform_one_starts_none (r : Reduce) (output : List LogEvent) (event : LogEvent)
    (now : Nat)
    (hstarts : r.startsHere event = true)
    (hlookup : assocLookup r.reduce_merge_states
        (Discriminant.from_log_event event r.group_by) = none)
    (hpos : 0 < r.expire_after)
    (hfresh : ∀ kv ∈ r.reduce_merge_states, now - kv.2.stale_since < r.expire_after) :
    r.transform_one output event now =
      ({ r with reduce_merge_states :=
          r.reduce_merge_states ++
            [(Discriminant.from_log_event event r.group_by,
              ReduceState.new event r.merge_strategies now)] },
        output, 0) := by
  unfold Reduce.transform_one
  simp only [hstarts, if_true, hlookup]
  simp only [Reduce.push_or_new_reduce_state, hlookup]
  apply flush_into_of_fresh
  intro kv hkv
  rcases List.mem_append.mp hkv with h1 | h2
  · exact hfresh kv h1
  · have : kv = (Discriminant.from_log_event event r.group_by,
        ReduceState.new event r.merge_strategies now) := by
      simpa using h2
    rw [this]
    simpa [ReduceState.new] using hpos

theorem transform_one_neither_some (r : Reduce) (output : List LogEvent) (event : LogEvent)
    (now : Nat) (state : ReduceState)
    (hstarts : r.startsHere event = false)
    (hends : r.endsHere event = false)
    (hlookup : assocLookup r.reduce_merge_states
        (Discriminant.from_log_event event r.group_by) = some state)
    (hfresh : ∀ kv ∈ r.reduce_merge_states, now - kv.2.stale_since < r.expire_after) :
    r.transform_one output event now =
      ({ r with reduce_merge_states :=
          (assocUpdate r.reduce_merge_states (Discriminant.from_log_event event r.group_by)
            (fun s => s.add_event event r.merge_strategies)) },
        output, 0) := by
  unfold Reduce.transform_one
  simp only [hstarts, hends, Bool.false_eq_true, if_false]
  simp only [Reduce.push_or_new_reduce_state, hlookup]
  apply flush_into_of_fresh
  intro kv hkv
  rcases mem_assocUpdate _ _ _ kv hkv with h1 | ⟨v, hv, hkv2⟩
  · exact hfresh kv h1
  · have := hfresh (kv.1, v) hv
    simpa [hkv2, ReduceState.add_event] using this

theorem transform_one_neither_none (r : Reduce) (output : List LogEvent) (event : LogEvent)
    (now : Nat)
    (hstarts : r.startsHere event = false)
    (hends : r.endsHere event = false)
    (hlookup : assocLookup r.reduce_merge_states
        (Discriminant.from_log_event event r.group_by) = none)
    (hpos : 0 < r.expire_after)
    (hfresh : ∀ kv ∈ r.reduce_merge_states, now - kv.2.stale_since < r.expire_after) :
    r.transform_one output event now =
      ({ r with reduce_merge_states :=
          r.reduce_merge_states ++
            [(Discriminant.from_log_event event r.group_by,
              ReduceState.new event r.merge_strategies now)] },
        output, 0) := by
  unfold Reduce.transform_one
  simp only [hstarts, hends, Bool.false_eq_true, if_false]
  simp only [Reduce.push_or_new_reduce_state, hlookup]
  apply flush_into_of_fresh
  intro kv hkv
  rcases List.mem_append.mp hkv with h1 | h2
  · exact hfresh kv h1
  · have : kv = (Discriminant.from_log_event event r.group_by,
        ReduceState.new event r.merge_strategies now) := by
      simpa using h2
    rw [this]
    simpa [ReduceState.new] using hpos

/-- Claim C1 (evaluation of the code at the failing behavior): the source's
`ReduceState::add_event` never updates `stale_since` — after any append the
group's `stale_since` is still whatever it was before the append (the
creation instant), not the instant of the appended event, contradicting the
spec's "Update `stale_since = now()`" and the config's own documentation of
`expire_after_ms` as the period "after the last event is received". -/
theorem add_event_leaves_stale_since_unchanged (s : ReduceState) (e : LogEvent)
    (strategies : List (String × MergeStrategy)) :
    (s.add_event e strategies).stale_since = s.stale_since := rfl

/-- Claim C2: with `ends_when` true and `starts_when` false for an event
(and no group stale at `now`, so the trailing sweep is inert), the
per-event decision emits exactly one event: a live group at the event's
discriminant absorbs the event, is flushed and its entry removed; with no
live group, a transient singleton group is flushed without being stored. -/
theorem ends_when_emits_exactly_one (r : Reduce) (output : List LogEvent)
    (event : LogEvent) (now : Nat)
    (hstarts : r.startsHere event = false)
    (hends : r.endsHere event = true)
    (hfresh : ∀ kv ∈ r.reduce_merge_states, now - kv.2.stale_since < r.expire_after) :
    (∀ state, assocLookup r.reduce_merge_states
        (Discriminant.from_log_event event r.group_by) = some state →
      r.transform_one output event now =
        ({ r with reduce_merge_states :=
            assocErase r.reduce_merge_states (Discriminant.from_log_event event r.group_by) },
          output ++ [(state.add_event event r.merge_strategies).flush], 0)) ∧
    (assocLookup r.reduce_merge_states
        (Discriminant.from_log_event event r.group_by) = none →
      r.transform_one output event now =
        (r, output ++ [(ReduceState.new event r.merge_strategies now).flush], 0)) ∧
    (r.transform_one output event now).2.1.length = output.length + 1 := by
  refine ⟨fun state hl => transform_one_ends_some r output event now state hstarts hends hl hfresh,
    fun hl => transform_one_ends_none r output event now hstarts hends hl hfresh, ?_⟩
  cases hl : assocLookup r.reduce_merge_states
      (Discriminant.from_log_event event r.group_by) with
  | some state =>
      rw [transform_one_ends_some r output event now state hstarts hends hl hfresh]
      simp
  | none =>
      rw [transform_one_ends_none r output event now hstarts hends hl hfresh]
      simp

/-- Witness for C2 at a concrete reducer with one live group. -/
theorem ends_when_emits_exactly_one_witness :
    rEnds.startsHere evEnd = false ∧ rEnds.endsHere evEnd = true ∧
    (∀ kv ∈ rEnds.reduce_merge_states, 1 - kv.2.stale_since < rEnds.expire_after) ∧
    (rEnds.transform_one [] evEnd 1).2.1.length = List.length ([] : List LogEvent) + 1 :=
  ⟨rfl, rfl, by decide,
    (ends_when_emits_exactly_one rEnds [] evEnd 1 rfl rfl (by decide)).2.2⟩

/-- Claim C9: with `ends_when` true, `starts_when` false, and no live group
at the event's discriminant (and no group stale at `now`), the per-event
decision leaves the reducer — in particular its map of live groups —
exactly as it was: the transient singleton is flushed without insertion. -/
theorem ends_when_singleton_preserves_map (r : Reduce) (output : List LogEvent)
    (event : LogEvent) (now : Nat)
    (hstarts : r.startsHere event = false)
    (hends : r.endsHere event = true)
    (hlookup : assocLookup r.reduce_merge_states
        (Discriminant.from_log_event event r.group_by) = none)
    (hfresh : ∀ kv ∈ r.reduce_merge_states, now - kv.2.stale_since < r.expire_after) :
    (r.transform_one output event now).1 = r := by
  rw [transform_one_ends_none r output event now hstarts hends hlookup hfresh]

/-- Witness for C9 at a reducer with an unrelated (empty) group map. -/
theorem ends_when_singleton_preserves_map_witness :
    rEndsEmpty.endsHere evEnd = true ∧
    assocLookup rEndsEmpty.reduce_merge_states
      (Discriminant.from_log_event evEnd rEndsEmpty.group_by) = none ∧
    (rEndsEmpty.transform_one [] evEnd 1).1 = rEndsEmpty :=
  ⟨rfl, rfl,
    ends_when_singleton_preserves_map rEndsEmpty [] evEnd 1 rfl rfl rfl (by decide)⟩

/-- Claim C3: with `starts_when` true for an event (and no group stale at
`now`, distinct live keys, positive expiry), a live group at the event's
discriminant is flushed and emitted without the current event contributing,
and a fresh group seeded from the current event replaces it; with no live
group, nothing is emitted and a fresh group is seeded. -/
theorem starts_when_flushes_then_reseeds (r : Reduce) (output : List LogEvent)
    (event : LogEvent) (now : Nat)
    (hstarts : r.startsHere event = true)
    (hkeys : (r.reduce_merge_states.map Prod.fst).Nodup)
    (hpos : 0 < r.expire_after)
    (hfresh : ∀ kv ∈ r.reduce_merge_states, now - kv.2.stale_since < r.expire_after) :
    (∀ state, assocLookup r.reduce_merge_states
        (Discriminant.from_log_event event r.group_by) = some state →
      r.transform_one output event now =
        ({ r with reduce_merge_states :=
            assocErase r.reduce_merge_states (Discriminant.from_log_event event r.group_by) ++
              [(Discriminant.from_log_event event r.group_by,
                ReduceState.new event r.merge_strategies now)] },
          output ++ [state.flush], 0)) ∧
    (assocLookup r.reduce_merge_states
        (Discriminant.from_log_event event r.group_by) = none →
      r.transform_one output event now =
        ({ r with reduce_merge_states :=
            r.reduce_merge_states ++
              [(Discriminant.from_log_event event r.group_by,
                ReduceState.new event r.merge_strategies now)] },
          output, 0)) :=
  ⟨fun state hl =>
      transform_one_starts_some r output event now state hstarts hl hkeys hpos hfresh,
    fun hl => transform_one_starts_none r output event now hstarts hl hpos hfresh⟩

/-- Witness for C3: flushing the pending group and starting anew, and the
very first `starts_when` event starting a group with no emission. -/
theorem starts_when_flushes_then_reseeds_witness :
    rStarts.startsHere evBegin = true ∧
    assocLookup rStarts.reduce_merge_states
      (Discriminant.from_log_event evBegin rStarts.group_by) = some groupA ∧
    (rStarts.transform_one [] evBegin 1).2.1 = [] ++ [groupA.flush] ∧
    (rStartsEmpty.transform_one [] evBegin 1).2.1 = [] := by
  refine ⟨rfl, rfl, ?_, ?_⟩
  · have h := (starts_when_flushes_then_reseeds rStarts [] evBegin 1 rfl
      (by decide) (by decide) (by decide)).1 groupA rfl
    rw [h]
  · have h := (starts_when_flushes_then_reseeds rStartsEmpty [] evBegin 1 rfl
      (by decide) (by decide) (by decide)).2 rfl
    rw [h]

/-- Claim C5: on upstream end-of-stream the driver drains every remaining
group — one output event per group, in map order — leaves the group map
empty, and the output sequence terminates with exactly those events and
nothing after them. -/
theorem end_of_stream_flushes_all (r : Reduce) (output : List LogEvent) :
    (r.flush_all_into output).1.reduce_merge_states = [] ∧
    (r.flush_all_into output).2.1 =
      output ++ r.reduce_merge_states.map (fun kv => kv.2.flush) ∧
    (r.flush_all_into output).2.1.length =
      output.length + r.reduce_merge_states.length ∧
    r.run [] = r.reduce_merge_states.map (fun kv => kv.2.flush) := by
  refine ⟨rfl, ?_, ?_, ?_⟩
  · simp [Reduce.flush_all_into, foldl_push_eq]
  · simp [Reduce.flush_all_into, foldl_push_eq]
  · simp [Reduce.run, Reduce.flush_all_into, foldl_push_eq]

/-- Claim C4: a stale-sweep call removes exactly the live groups whose
elapsed time since `stale_since` is at least `expire_after`, emits exactly
their flushes (in map order), and records exactly one `StaleEventFlushed`
hook per group so flushed; the end-of-stream drain records no hook, and a
per-event decision whose trailing sweep finds no stale group records no
hook either, even when it emits predicate-driven flushes. -/
theorem stale_sweep_flushes_exactly_expired (r : Reduce) (output : List LogEvent)
    (now : Nat)
    (hkeys : (r.reduce_merge_states.map Prod.fst).Nodup) :
    (r.flush_into output now).1.reduce_merge_states =
        r.reduce_merge_states.filter
          (fun kt => now - kt.2.stale_since < r.expire_after) ∧
    (r.flush_into output now).2.1 =
        output ++ (r.reduce_merge_states.filter
          (fun kt => r.expire_after ≤ now - kt.2.stale_since)).map (fun kv => kv.2.flush) ∧
    (r.flush_into output now).2.2 =
        (r.reduce_merge_states.filter
          (fun kt => r.expire_after ≤ now - kt.2.stale_since)).length ∧
    (r.flush_all_into output).2.2 = 0 ∧
    (0 < r.expire_after →
      (∀ kv ∈ r.reduce_merge_states, now - kv.2.stale_since < r.expire_after) →
      ∀ ev : LogEvent, (r.transform_one output ev now).2.2 = 0) := by
  have hmain := flushLoop_exact
    (fun kt => decide (r.expire_after ≤ now - kt.2.stale_since))
    r.reduce_merge_states hkeys r output 0
  have hinit : ({ r with reduce_merge_states := r.reduce_merge_states }, output, 0) =
      ((r, output, 0) : Reduce × List LogEvent × Nat) := rfl
  rw [hinit] at hmain
  have hflush : r.flush_into output now =
      ({ r with reduce_merge_states := (r.reduce_merge_states.filter
          (fun kv => !decide (r.expire_after ≤ now - kv.2.stale_since))) },
        output ++ (r.reduce_merge_states.filter
          (fun kt => decide (r.expire_after ≤ now - kt.2.stale_since))).map
            (fun kv => kv.2.flush),
        0 + (r.reduce_merge_states.filter
          (fun kt => decide (r.expire_after ≤ now - kt.2.stale_since))).length) := by
    unfold Reduce.flush_into
    exact hmain
  have hneg : r.reduce_merge_states.filter
      (fun kv => !decide (r.expire_after ≤ now - kv.2.stale_since)) =
        r.reduce_merge_states.filter
          (fun kt => now - kt.2.stale_since < r.expire_after) := by
    apply List.filter_congr
    intro kv _
    rw [← decide_not]
    exact decide_eq_decide.mpr Nat.not_le
  refine ⟨?_, ?_, ?_, rfl, ?_⟩
  · rw [hflush, ← hneg]
  · rw [hflush]
  · rw [hflush]
    simp
  · intro hpos hfresh ev
    cases hs : r.startsHere ev with
    | true =>
        cases hl : assocLookup r.reduce_merge_states
            (Discriminant.from_log_event ev r.group_by) with
        | some state =>
            rw [transform_one_starts_some r output ev now state hs hl hkeys hpos hfresh]
        | none =>
            rw [transform_one_starts_none r output ev now hs hl hpos hfresh]
    | false =>
        cases he : r.endsHere ev with
        | true =>
            cases hl : assocLookup r.reduce_merge_states
                (Discriminant.from_log_event ev r.group_by) with
            | some state =>
                rw [transform_one_ends_some r output ev now state hs he hl hfresh]
            | none =>
                rw [transform_one_ends_none r output ev now hs he hl hfresh]
        | false =>
            cases hl : assocLookup r.reduce_merge_states
                (Discriminant.from_log_event ev r.group_by) with
            | some state =>
                rw [transform_one_neither_some r output ev now state hs he hl hfresh]
            | none =>
                rw [transform_one_neither_none r output ev now hs he hl hpos hfresh]

/-- Witness for C4 at a concrete stale group (stale_since 0, expire 100,
swept at instant 200): exactly one hook and one emission. -/
theorem stale_sweep_flushes_exactly_expired_witness :
    (rEnds.reduce_merge_states.map Prod.fst).Nodup ∧
    (rEnds.flush_into [] 200).2.2 = 1 ∧
    (rEnds.flush_into [] 200).1.reduce_merge_states = [] ∧
    (rEnds.flush_all_into []).2.2 = 0 := by
  have h := stale_sweep_flushes_exactly_expired rEnds [] 200 (by decide)
  refine ⟨by decide, ?_, ?_, h.2.2.2.1⟩
  · rw [h.2.2.1]; rfl
  · rw [h.1]; rfl

/-- Builds of an absent predicate transpose to `ok none`. -/
theorem exceptTranspose_map_none :
    exceptTranspose (Option.map AnyCondition.build none) = Except.ok none := rfl

/-- Builds of a present predicate that builds successfully transpose to
`ok (some c)`. -/
theorem exceptTranspose_map_some (ac : AnyCondition) (c : Condition)
    (hc : ac.build = Except.ok c) :
    exceptTranspose (Option.map AnyCondition.build (some ac)) = Except.ok (some c) := by
  show exceptTranspose (some ac.build) = Except.ok (some c)
  rw [hc]
  rfl

/-- Claim C6: building the reducer from a configuration fails exactly when
both `ends_when` and `starts_when` are set; with at most one of them set,
and assuming whichever predicate is set builds successfully, construction
succeeds. -/
theorem reduce_new_fails_iff_both_predicates (config : ReduceConfig)
    (hends : ∀ ac, config.ends_when = some ac → ∃ c, ac.build = Except.ok c)
    (hstarts : ∀ ac, config.starts_when = some ac → ∃ c, ac.build = Except.ok c) :
    (∃ msg, Reduce.new config = Except.error msg) ↔
      (config.ends_when.isSome ∧ config.starts_when.isSome) := by
  cases he : config.ends_when with
  | none =>
      cases hs : config.starts_when with
      | none =>
          have hnew : Reduce.new config = Except.ok
              { expire_after := config.expire_after_ms.getD 30000
              , flush_period := config.flush_period_ms.getD 1000
              , group_by := config.group_by
              , merge_strategies := config.merge_strategies
              , reduce_merge_states := []
              , ends_when := none
              , starts_when := none } := by
            unfold Reduce.new
            rw [he, hs, exceptTranspose_map_none]
            rfl
          simp [hnew, hs]
      | some ac =>
          obtain ⟨c, hc⟩ := hstarts ac hs
          have hnew : Reduce.new config = Except.ok
              { expire_after := config.expire_after_ms.getD 30000
              , flush_period := config.flush_period_ms.getD 1000
              , group_by := config.group_by
              , merge_strategies := config.merge_strategies
              , reduce_merge_states := []
              , ends_when := none
              , starts_when := some c } := by
            unfold Reduce.new
            rw [he, hs, exceptTranspose_map_none, exceptTranspose_map_some ac c hc]
            rfl
          simp [hnew, he]
  | some ac =>
      obtain ⟨c, hc⟩ := hends ac he
      cases hs : config.starts_when with
      | none =>
          have hnew : Reduce.new config = Except.ok
              { expire_after := config.expire_after_ms.getD 30000
              , flush_period := config.flush_period_ms.getD 1000
              , group_by := config.group_by
              , merge_strategies := config.merge_strategies
              , reduce_merge_states := []
              , ends_when := some c
              , starts_when := none } := by
            unfold Reduce.new
            rw [he, hs, exceptTranspose_map_none, exceptTranspose_map_some ac c hc]
            rfl
          simp [hnew, hs]
      | some ac2 =>
          have hnew : Reduce.new config =
              Except.error "only one of `ends_when` and `starts_when` can be provided" := by
            unfold Reduce.new
            rw [he, hs]
            rfl
          simp [hnew]

/-- Witness for C6: both predicates set fails; one predicate set builds. -/
theorem reduce_new_fails_iff_both_predicates_witness :
    (∃ msg, Reduce.new cfgBoth = Except.error msg) ∧
    ¬(∃ msg, Reduce.new cfgOne = Except.error msg) := by
  constructor
  · exact (reduce_new_fails_iff_both_predicates cfgBoth
      (fun ac h => by
        have h2 : anyOk = ac := Option.some.inj h
        exact ⟨condTestEnd, h2 ▸ rfl⟩)
      (fun ac h => by
        have h2 : anyOk = ac := Option.some.inj h
        exact ⟨condTestEnd, h2 ▸ rfl⟩)).mpr ⟨rfl, rfl⟩
  · intro hex
    have h := (reduce_new_fails_iff_both_predicates cfgOne
      (fun ac h => by
        have h2 : anyOk = ac := Option.some.inj h
        exact ⟨condTestEnd, h2 ▸ rfl⟩)
      (fun ac h => by exact Option.noConfusion h)).mp hex
    exact absurd h.2 (by decide)

/-- Claim C8: a non-mapping-valued event contributes no fields — creating a
group from it yields an empty field map with the event's metadata taken,
and appending it to an existing group leaves the field map unchanged while
still merging the event's metadata into the group's. -/
theorem non_mapping_event_contributes_no_fields (e : LogEvent)
    (strategies : List (String × MergeStrategy)) (now : Nat) (s : ReduceState)
    (h : e.value.isObject = false) :
    (ReduceState.new e strategies now).fields = [] ∧
    (ReduceState.new e strategies now).metadata = e.metadata ∧
    (s.add_event e strategies).fields = s.fields ∧
    (s.add_event e strategies).metadata = s.metadata.merge e.metadata := by
  have hf0 : e.value.fieldsOf = [] := by
    cases hv : e.value <;> simp_all [Value.isObject, Value.fieldsOf]
  refine ⟨?_, rfl, ?_, rfl⟩
  · unfold ReduceState.new
    cases hv : e.value <;> simp_all [Value.isObject]
  · unfold ReduceState.add_event
    rw [hf0]
    rfl

/-- Witness for C8 at a concrete integer-valued event and live group. -/
theorem non_mapping_event_contributes_no_fields_witness :
    evNonMap.value.isObject = false ∧
    (ReduceState.new evNonMap [] 7).fields = [] ∧
    (groupA.add_event evNonMap []).fields = groupA.fields ∧
    (groupA.add_event evNonMap []).metadata = groupA.metadata.merge evNonMap.metadata :=
  ⟨rfl,
    (non_mapping_event_contributes_no_fields evNonMap [] 7 groupA rfl).1,
    (non_mapping_event_contributes_no_fields evNonMap [] 7 groupA rfl).2.2.1,
    (non_mapping_event_contributes_no_fields evNonMap [] 7 groupA rfl).2.2.2⟩

theorem addFieldStep_keys_mono (strategies : List (String × MergeStrategy))
    (acc : List (String × Merger)) (kv : String × Value) :
    ∀ k ∈ acc.map Prod.fst, k ∈ (addFieldStep strategies acc kv).map Prod.fst := by
  intro k hk
  unfold addFieldStep
  cases assocLookup acc kv.1 with
  | none =>
      cases assocLookup strategies kv.1 with
      | none => simp [hk]
      | some strat =>
          cases hm : get_value_merger kv.2 strat with
          | ok m => simp [hm, hk]
          | error msg => simpa [hm] using hk
  | some m =>
      rw [assocUpdate_keys]
      exact hk

theorem foldl_addFieldStep_keys_mono (strategies : List (String × MergeStrategy)) :
    ∀ (fs : List (String × Value)) (acc : List (String × Merger)) (k : String),
      k ∈ acc.map Prod.fst →
      k ∈ (fs.foldl (addFieldStep strategies) acc).map Prod.fst
  | [], _, _ => fun hk => hk
  | kv :: fs, acc, k => fun hk =>
      foldl_addFieldStep_keys_mono strategies fs (addFieldStep strategies acc kv) k
        (addFieldStep_keys_mono strategies acc kv k hk)

theorem addFieldStep_adds_key (strategies : List (String × MergeStrategy))
    (acc : List (String × Merger)) (k : String) (v : Value)
    (hstrat : assocLookup strategies k = none) :
    k ∈ (addFieldStep strategies acc (k, v)).map Prod.fst := by
  unfold addFieldStep
  cases hl : assocLookup acc k with
  | none => simp [hstrat]
  | some m =>
      rw [assocUpdate_keys]
      exact mem_keys_of_assocLookup acc k m hl

theorem foldl_addFieldStep_retains (strategies : List (String × MergeStrategy)) :
    ∀ (fs : List (String × Value)) (acc : List (String × Merger)) (k : String) (v : Value),
      (k, v) ∈ fs → assocLookup strategies k = none →
      k ∈ (fs.foldl (addFieldStep strategies) acc).map Prod.fst
  | [], _, _, _ => fun hmem _ => absurd hmem (List.not_mem_nil _)
  | kv :: fs, acc, k, v => fun hmem hstrat => by
      rcases List.mem_cons.mp hmem with h1 | h2
      · subst h1
        exact foldl_addFieldStep_keys_mono strategies fs _ k
          (addFieldStep_adds_key strategies acc k v hstrat)
      · exact foldl_addFieldStep_retains strategies fs _ k v h2 hstrat

/-- Claim C10: a field with no entry in `merge_strategies` is always
retained at seed time — the default merger is a total function of the seed
value, so such a field is present in the group's field map after creation
from an event carrying it, and after appending an event carrying it
mid-group; only explicitly configured strategies can reject a seed. -/
theorem unconfigured_field_always_retained (e : LogEvent)
    (strategies : List (String × MergeStrategy)) (now : Nat) (s : ReduceState)
    (fs : List (String × Value)) (k : String) (v : Value)
    (he : e.value = Value.object fs)
    (hmem : (k, v) ∈ fs)
    (hstrat : assocLookup strategies k = none) :
    k ∈ (ReduceState.new e strategies now).fields.map Prod.fst ∧
    k ∈ (s.add_event e strategies).fields.map Prod.fst := by
  constructor
  · unfold ReduceState.new
    rw [he]
    refine List.mem_map.mpr ⟨(k, defaultMerger v), ?_, rfl⟩
    exact List.mem_filterMap.mpr ⟨(k, v), hmem, by simp [hstrat]⟩
  · unfold ReduceState.add_event
    have hfields : e.value.fieldsOf = fs := by rw [he]; rfl
    rw [hfields]
    exact foldl_addFieldStep_retains strategies fs s.fields k v hmem hstrat

/-- Witness for C10 at a concrete unconfigured field. -/
theorem unconfigured_field_always_retained_witness :
    evPlain.value = Value.object [("x", Value.int 1)] ∧
    assocLookup ([] : List (String × MergeStrategy)) "x" = none ∧
    "x" ∈ (ReduceState.new evPlain [] 3).fields.map Prod.fst ∧
    "x" ∈ (groupA.add_event evPlain []).fields.map Prod.fst := by
  have h := unconfigured_field_always_retained evPlain [] 3 groupA
    [("x", Value.int 1)] "x" (Value.int 1) rfl (by decide) rfl
  exact ⟨rfl, rfl, h.1, h.2⟩

theorem insert_into_names (k : String) (m : Merger) :
    ∀ entry ∈ Merger.insert_into k m, entry.1 = k ∨ entry.1 = k ++ "_end" := by
  intro entry hentry
  cases m <;> simp [Merger.insert_into] at hentry <;>
    first
      | exact Or.inl (by simp [hentry])
      | rcases hentry with h1 | h2
        · exact Or.inl (by simp [h1])
        · exact Or.inr (by simp [h2])

theorem flush_names (s : ReduceState) :
    ∀ k ∈ s.flush.fieldNames,
      ∃ k0 ∈ s.fields.map Prod.fst, k = k0 ∨ k = k0 ++ "_end" := by
  intro k hk
  unfold ReduceState.flush LogEvent.fieldNames at hk
  rw [foldl_append_eq (fun kv => Merger.insert_into kv.1 kv.2) s.fields []] at hk
  simp only [Value.fieldsOf, List.nil_append] at hk
  rcases List.mem_map.mp hk with ⟨entry, hentry, hfst⟩
  rcases List.mem_flatten.mp hentry with ⟨l, hl, hin⟩
  rcases List.mem_map.mp hl with ⟨kv, hkv, hmap⟩
  subst hmap
  rcases insert_into_names kv.1 kv.2 entry hin with h1 | h2
  · exact ⟨kv.1, List.mem_map_of_mem Prod.fst hkv, Or.inl (hfst ▸ h1 ▸ rfl)⟩
  · exact ⟨kv.1, List.mem_map_of_mem Prod.fst hkv, Or.inr (hfst ▸ h2 ▸ rfl)⟩

theorem new_keys_subset (e : LogEvent) (strategies : List (String × MergeStrategy))
    (now : Nat) :
    ∀ k ∈ (ReduceState.new e strategies now).fields.map Prod.fst, k ∈ e.fieldNames := by
  intro k hk
  unfold ReduceState.new at hk
  unfold LogEvent.fieldNames
  cases hv : e.value with
  | object fs =>
      rw [hv] at hk
      simp only [Value.fieldsOf]
      rcases List.mem_map.mp hk with ⟨kv', hkv', hfst⟩
      rcases List.mem_filterMap.mp hkv' with ⟨src, hsrc, heq⟩
      have hfst2 : kv'.1 = src.1 := by
        cases hls : assocLookup strategies src.1 with
        | none =>
            rw [hls] at heq
            simp at heq
            simp [← heq]
        | some strat =>
            rw [hls] at heq
            cases hm : get_value_merger src.2 strat with
            | ok m =>
                simp [hm] at heq
                simp [← heq]
            | error msg =>
                simp [hm] at heq
      rw [← hfst, hfst2]
      exact List.mem_map_of_mem Prod.fst hsrc
  | null => rw [hv] at hk; simp at hk
  | bool b => rw [hv] at hk; simp at hk
  | int n => rw [hv] at hk; simp at hk
  | float q => rw [hv] at hk; simp at hk
  | timestamp t => rw [hv] at hk; simp at hk
  | bytes s2 => rw [hv] at hk; simp at hk
  | str s2 => rw [hv] at hk; simp at hk
  | array vs => rw [hv] at hk; simp at hk

theorem addFieldStep_keys_subset (strategies : List (String × MergeStrategy))
    (acc : List (String × Merger)) (kv : String × Value) :
    ∀ k ∈ (addFieldStep strategies acc kv).map Prod.fst,
      k ∈ acc.map Prod.fst ++ [kv.1] := by
  intro k hk
  unfold addFieldStep at hk
  cases hl : assocLookup acc kv.1 with
  | none =>
      rw [hl] at hk
      cases hls : assocLookup strategies kv.1 with
      | none =>
          rw [hls] at hk
          simp at hk
          simpa using hk
      | some strat =>
          rw [hls] at hk
          cases hm : get_value_merger kv.2 strat with
          | ok m =>
              simp [hm] at hk
              simpa using hk
          | error msg =>
              simp [hm] at hk
              simp [hk]
  | some m =>
      rw [hl] at hk
      simp only [assocUpdate_keys] at hk
      simp [hk]

theorem foldl_addFieldStep_keys_subset (strategies : List (String × MergeStrategy)) :
    ∀ (fs : List (String × Value)) (acc : List (String × Merger)),
      ∀ k ∈ (fs.foldl (addFieldStep strategies) acc).map Prod.fst,
        k ∈ acc.map Prod.fst ++ fs.map Prod.fst
  | [], acc => by simp
  | kv :: fs, acc => by
      intro k hk
      have h1 := foldl_addFieldStep_keys_subset strategies fs
        (addFieldStep strategies acc kv) k hk
      rcases List.mem_append.mp h1 with h2 | h3
      · have h4 := addFieldStep_keys_subset strategies acc kv k h2
        rcases List.mem_append.mp h4 with h5 | h6
        · exact List.mem_append.mpr (Or.inl h5)
        · refine List.mem_append.mpr (Or.inr ?_)
          simp only [List.map_cons, List.mem_cons]
          exact Or.inl (by simpa using h6)
      · refine List.mem_append.mpr (Or.inr ?_)
        simp only [List.map_cons, List.mem_cons]
        exact Or.inr h3

theorem add_event_keys_subset (s : ReduceState) (e : LogEvent)
    (strategies : List (String × MergeStrategy)) :
    ∀ k ∈ (s.add_event e strategies).fields.map Prod.fst,
      k ∈ s.fields.map Prod.fst ++ e.fieldNames := by
  intro k hk
  unfold ReduceState.add_event at hk
  exact foldl_addFieldStep_keys_subset strategies e.value.fieldsOf s.fields k hk

theorem feedGroup_keys_subset (strategies : List (String × MergeStrategy)) :
    ∀ (es : List LogEvent) (s : ReduceState) (U : List String),
      (∀ k ∈ s.fields.map Prod.fst, k ∈ U) →
      ∀ k ∈ (es.foldl (fun s2 e => s2.add_event e strategies) s).fields.map Prod.fst,
        k ∈ U ++ unionFieldNames es
  | [], s, U => by
      intro hsub k hk
      simpa [unionFieldNames] using hsub k hk
  | e :: es, s, U => by
      intro hsub k hk
      have hstep : ∀ k2 ∈ (s.add_event e strategies).fields.map Prod.fst,
          k2 ∈ U ++ e.fieldNames := by
        intro k2 hk2
        rcases List.mem_append.mp (add_event_keys_subset s e strategies k2 hk2) with h1 | h2
        · exact List.mem_append.mpr (Or.inl (hsub k2 h1))
        · exact List.mem_append.mpr (Or.inr h2)
      have h := feedGroup_keys_subset strategies es (s.add_event e strategies)
        (U ++ e.fieldNames) hstep k hk
      simpa [unionFieldNames, List.append_assoc] using h

/-- Counterexample to C7 as stated: a group fed by the single event `evTs`
(whose only field is the timestamp-valued `t`) emits an event carrying the
synthetic field name `t_end`, which appears in no input event of the group
— the emitted field set is not a subset of the union of the input field
sets. -/
theorem emitted_fields_subset_cex :
    (rAlways.run [DriverStep.event evTs 0]).map LogEvent.fieldNames = [["t", "t_end"]] ∧
    unionFieldNames [evTs] = ["t"] ∧
    "t_end" ∉ unionFieldNames [evTs] := by
  refine ⟨rfl, rfl, ?_⟩
  decide

/-- Claim C7 (amended): for every event emitted for a group, each field
name it carries either appears in some input event of that group, or is
`f ++ "_end"` for a field name `f` that appears in some input event (the
synthetic companion produced by the default timestamp strategy). -/
theorem emitted_fields_subset_amended (e0 : LogEvent) (es : List LogEvent)
    (strategies : List (String × MergeStrategy)) (now : Nat) (k : String)
    (hk : k ∈ (feedGroup e0 es strategies now).flush.fieldNames) :
    k ∈ unionFieldNames (e0 :: es) ∨
      ∃ f ∈ unionFieldNames (e0 :: es), k = f ++ "_end" := by
  rcases flush_names (feedGroup e0 es strategies now) k hk with ⟨k0, hk0, hcase⟩
  have hk0union : k0 ∈ unionFieldNames (e0 :: es) := by
    have hbase : ∀ k2 ∈ (ReduceState.new e0 strategies now).fields.map Prod.fst,
        k2 ∈ e0.fieldNames := new_keys_subset e0 strategies now
    have h := feedGroup_keys_subset strategies es (ReduceState.new e0 strategies now)
      e0.fieldNames hbase k0 hk0
    simpa [unionFieldNames] using h
  rcases hcase with h1 | h2
  · exact Or.inl (h1 ▸ hk0union)
  · exact Or.inr ⟨k0, hk0union, h2⟩

/-- Witness for the amended C7 at a concrete two-event group with a
timestamp field. -/
theorem emitted_fields_subset_amended_witness :
    "t_end" ∈ (feedGroup evTs [evPlain] [] 0).flush.fieldNames ∧
    ("t_end" ∈ unionFieldNames (evTs :: [evPlain]) ∨
      ∃ f ∈ unionFieldNames (evTs :: [evPlain]), "t_end" = f ++ "_end") := by
  have hmem : "t_end" ∈ (feedGroup evTs [evPlain] [] 0).flush.fieldNames := by decide
  exact ⟨hmem, emitted_fields_subset_amended evTs [evPlain] [] 0 "t_end" hmem⟩
